import Mathlib

/-!
Verification development for a browser to-do list (`src/tasks.ts`).

The program keeps an in-memory array `tasks : Task[]`, renders it into a DOM
list, and mirrors it into `localStorage` under the key `"tasks"` as a JSON
string.  We embed the program shallowly:

* `Task` mirrors the TypeScript `type Task`.
* `encodeTasks` models `JSON.stringify` applied to a `Task[]` value: JSON
  built without whitespace, object keys in declaration order
  (`description` then `isCompleted`), strings escaped the way
  `JSON.stringify` escapes them.
* `parseTasks` models `JSON.parse` on the snapshot grammar: it accepts the
  canonical snapshot strings (the image of `encodeTasks`, plus the
  alternative escape spellings JSON allows inside string literals) and
  returns `none` where `JSON.parse` would throw on such inputs.
* `AppState` carries the in-memory array, the stored snapshot
  (`Option String`, `none` = no `"tasks"` key), and the DOM list container
  (`Option (List Task)`, `none` = the `.list` element is missing; `some rows`
  = the rendered rows, in order).
* The three event handlers (`submitEvent`, `toggleEvent`, `deleteEvent`) are
  translated from the three `addEventListener` callbacks.
-/

namespace Todo

/-- Mirrors `type Task = { description: string; isCompleted: boolean }`. -/
structure Task where
  description : String
  isCompleted : Bool
deriving DecidableEq, Repr

/-- Lower-case hex digit, as `JSON.stringify` prints in `\u00XX` escapes. -/
def hexDigit (n : Nat) : Char :=
  if n < 10 then Char.ofNat (48 + n) else Char.ofNat (87 + n)

/-- How `JSON.stringify` escapes one character inside a string literal:
`"` and `\` get a backslash, the five named control escapes are used where
they exist, the remaining control characters (code &lt; 32) become `\u00XX`,
and every other character is emitted verbatim. -/
def escapeChar (c : Char) : List Char :=
  if c = '"' then ['\\', '"']
  else if c = '\\' then ['\\', '\\']
  else if c = '\x08' then ['\\', 'b']
  else if c = '\x0c' then ['\\', 'f']
  else if c = '\n' then ['\\', 'n']
  else if c = '\r' then ['\\', 'r']
  else if c = '\t' then ['\\', 't']
  else if c.toNat < 32 then
    ['\\', 'u', '0', '0', hexDigit (c.toNat / 16), hexDigit (c.toNat % 16)]
  else [c]

/-- Escaped body of a JSON string literal (no surrounding quotes). -/
def escTail : List Char → List Char
  | [] => []
  | c :: cs => escapeChar c ++ escTail cs

/-- A full JSON string literal for `s`, quotes included. -/
def encodeStrChars (s : List Char) : List Char :=
  '"' :: escTail s ++ ['"']

/-- The characters `"description":` (first key of the serialized object). -/
def descrKey : List Char := "\"description\":".data

/-- The characters `,"isCompleted":` (second key of the serialized object). -/
def complKey : List Char := ",\"isCompleted\":".data

/-- One serialized task object, exactly as `JSON.stringify` prints it. -/
def encodeTaskChars (t : Task) : List Char :=
  '\x7b' :: (descrKey ++ encodeStrChars t.description.data ++ complKey
    ++ (if t.isCompleted then "true".data else "false".data)) ++ ['\x7d']

/-- Comma-separated serialized objects (array body without the brackets). -/
def encodeInner : List Task → List Char
  | [] => []
  | [t] => encodeTaskChars t
  | t :: t2 :: ts => encodeTaskChars t ++ ',' :: encodeInner (t2 :: ts)

/-- Characters of `JSON.stringify(tasks)`. -/
def encodeTasksChars (ts : List Task) : List Char :=
  '[' :: encodeInner ts ++ [']']

/-- Models `JSON.stringify(tasks)`, the string written by `updateStorage`. -/
def encodeTasks (ts : List Task) : String :=
  String.mk (encodeTasksChars ts)

/-- Value of a hex digit accepted inside a `\uXXXX` escape. -/
def hexVal? (c : Char) : Option Nat :=
  if 48 ≤ c.toNat ∧ c.toNat ≤ 57 then some (c.toNat - 48)
  else if 97 ≤ c.toNat ∧ c.toNat ≤ 102 then some (c.toNat - 87)
  else if 65 ≤ c.toNat ∧ c.toNat ≤ 70 then some (c.toNat - 55)
  else none

/-- The character named by a one-letter JSON escape, if any. -/
def unescapeChar? (e : Char) : Option Char :=
  if e = '"' then some '"'
  else if e = '\\' then some '\\'
  else if e = '/' then some '/'
  else if e = 'b' then some '\x08'
  else if e = 'f' then some '\x0c'
  else if e = 'n' then some '\n'
  else if e = 'r' then some '\r'
  else if e = 't' then some '\t'
  else none

/-- Body of a JSON string literal, after the opening quote: returns the
decoded characters and the input remaining after the closing quote.  `fuel`
only bounds the recursion; any `fuel` larger than the decoded length gives
the answer.  Raw control characters and malformed or surrogate `\u` escapes
are rejected (`JSON.parse` throws on them). -/
def parseStrAux : Nat → List Char → Option (List Char × List Char)
  | 0, _ => none
  | _ + 1, [] => none
  | fuel + 1, c :: rest =>
    if c = '"' then some ([], rest)
    else if c = '\\' then
      match rest with
      | [] => none
      | 'u' :: h1 :: h2 :: h3 :: h4 :: r2 =>
        match hexVal? h1, hexVal? h2, hexVal? h3, hexVal? h4 with
        | some a, some b, some c2, some d =>
          let n := ((a * 16 + b) * 16 + c2) * 16 + d
          if n < 55296 ∨ 57344 ≤ n then
            Option.map (fun p => (Char.ofNat n :: p.1, p.2)) (parseStrAux fuel r2)
          else none
        | _, _, _, _ => none
      | e :: r =>
        match unescapeChar? e with
        | some u => Option.map (fun p => (u :: p.1, p.2)) (parseStrAux fuel r)
        | none => none
    else if c.toNat < 32 then none
    else Option.map (fun p => (c :: p.1, p.2)) (parseStrAux fuel rest)

/-- JSON string-literal body parse with enough fuel for any input. -/
def parseStr (l : List Char) : Option (List Char × List Char) :=
  parseStrAux (l.length + 1) l

/-- Consume an expected literal character sequence, returning the rest. -/
def stripLit : List Char → List Char → Option (List Char)
  | [], l => some l
  | _ :: _, [] => none
  | p :: ps, c :: cs => if c = p then stripLit ps cs else none

/-- Parse the JSON literals `true` / `false`. -/
def parseBool (l : List Char) : Option (Bool × List Char) :=
  match stripLit "true".data l with
  | some r => some (true, r)
  | none =>
    match stripLit "false".data l with
    | some r => some (false, r)
    | none => none

/-- Parse one serialized task object (canonical key order). -/
def parseTaskObj (l : List Char) : Option (Task × List Char) :=
  match stripLit ('\x7b' :: descrKey) l with
  | none => none
  | some r =>
    match r with
    | '"' :: r1 =>
      match parseStr r1 with
      | none => none
      | some (desc, r2) =>
        match stripLit complKey r2 with
        | none => none
        | some r3 =>
          match parseBool r3 with
          | none => none
          | some (b, r4) =>
            match r4 with
            | '\x7d' :: r5 => some (Task.mk (String.mk desc) b, r5)
            | _ => none
    | _ => none

/-- Parse `obj ("," obj)* "]"` — the body of a nonempty serialized array.
`fuel` bounds the number of objects; each object consumes at least one
character, so the input length is always enough fuel. -/
def parseTasksLoop : Nat → List Char → Option (List Task × List Char)
  | 0, _ => none
  | fuel + 1, l =>
    match parseTaskObj l with
    | none => none
    | some (t, r) =>
      match r with
      | ',' :: r2 => Option.map (fun p => (t :: p.1, p.2)) (parseTasksLoop fuel r2)
      | ']' :: r2 => some ([t], r2)
      | _ => none

/-- Parse a whole snapshot: `[]` or `[obj,...,obj]`, with nothing left over. -/
def parseTasksChars (l : List Char) : Option (List Task) :=
  match l with
  | '[' :: r =>
    if r = [']'] then some []
    else
      match parseTasksLoop r.length r with
      | some (ts, []) => some ts
      | _ => none
  | _ => none

/-- Models `JSON.parse` applied to a stored snapshot string: `some ts` when
the string is a (canonical-grammar) serialization of `ts`, `none` where
`JSON.parse` would throw. -/
def parseTasks (s : String) : Option (List Task) :=
  parseTasksChars s.data

/-- Models `loadTasks()`: `storedTasks ? JSON.parse(storedTasks) : []`.
The argument is `localStorage.getItem('tasks')` (`none` = key absent).  Both
`null` and the empty string are falsy, giving `[]`; otherwise the string is
fed to `JSON.parse`, and a thrown parse error is modelled as `none` (the
function never returns in that case — the exception is uncaught). -/
def loadTasks : Option String → Option (List Task)
  | none => some []
  | some s => if s = "" then some [] else parseTasks s

/-- The mutable state the script manipulates: the `tasks` array, the string
stored under the `"tasks"` key (`none` = key absent), and the `.list` DOM
container (`none` = element missing; `some rows` = the tasks whose rendered
rows it currently holds, in order). -/
structure AppState where
  tasks : List Task
  storage : Option String
  listElem : Option (List Task)
deriving DecidableEq, Repr

/-- Models `updateStorage()`: `localStorage.setItem('tasks', JSON.stringify(tasks))`. -/
def updateStorage (s : AppState) : AppState :=
  { s with storage := some (encodeTasks s.tasks) }

/-- Models `addTask(task)`: `tasks.push(task)` (appends at the end). -/
def addTask (ts : List Task) (t : Task) : List Task :=
  ts ++ [t]

/-- Models `renderTask(task)`: appends one row to the list container when it
exists (`taskListElement?.appendChild(...)`); skipped when it is `null`. -/
def renderTask (listElem : Option (List Task)) (t : Task) : Option (List Task) :=
  Option.map (fun rows => rows ++ [t]) listElem

/-- Models the `'submit'` handler of `taskForm`.  `hasForm = false` means
`taskForm` is `null`, so the listener was never attached and the event does
nothing.  `input` is `formInput?.value` (`none` = `formInput` is `null`).
The returned `Bool` records whether the blocking `alert` fired.  A truthy
description (any nonempty string, whitespace included) is pushed, rendered
incrementally, and persisted; otherwise the handler only alerts. -/
def submitEvent (hasForm : Bool) (input : Option String) (s : AppState) :
    AppState × Bool :=
  if hasForm then
    match input with
    | some v =>
      if v = "" then (s, true)
      else
        let t : Task := { description := v, isCompleted := false }
        let ts := addTask s.tasks t
        (updateStorage { s with tasks := ts, listElem := renderTask s.listElem t }, false)
    | none => (s, true)
  else (s, false)

/-- Models `task.isCompleted = !task.isCompleted` on one task record. -/
def toggleTask (t : Task) : Task :=
  { t with isCompleted := !t.isCompleted }

/-- Flip the `isCompleted` flag of the `i`-th array element (the checkbox
closure mutates the one task object it captured, which sits at position `i`
of the array). -/
def toggleAt : List Task → Nat → List Task
  | [], _ => []
  | t :: ts, 0 => toggleTask t :: ts
  | t :: ts, i + 1 => t :: toggleAt ts i

/-- Models the checkbox `'change'` handler for the row rendered from array
position `i`: flip that task's flag, then `updateStorage()`.  A row (and so
a handler) only exists for `i < tasks.length`; for other `i` there is no
event and the state is unchanged. -/
def toggleEvent (s : AppState) (i : Nat) : AppState :=
  if i < s.tasks.length then updateStorage { s with tasks := toggleAt s.tasks i }
  else s

/-- The predicate passed to `tasks.findIndex` in `deleteTask`:
`task.description === taskToDelete.description && task.isCompleted === taskToDelete.isCompleted`. -/
def taskMatches (taskToDelete task : Task) : Bool :=
  task.description == taskToDelete.description
    && task.isCompleted == taskToDelete.isCompleted

/-- Index of the first element satisfying `p` (JS `findIndex`, with `none`
playing the role of `-1`). -/
def findIndexOpt (p : α → Bool) : List α → Option Nat
  | [] => none
  | a :: l => if p a then some 0 else Option.map (· + 1) (findIndexOpt p l)

/-- Models `deleteTask(taskToDelete)`: find the first task matching on both
fields; if found, `splice` it out, `updateStorage()`, and re-render the whole
list when the container exists; if not found (`findIndex === -1`), do
nothing. -/
def deleteTask (s : AppState) (taskToDelete : Task) : AppState :=
  match findIndexOpt (taskMatches taskToDelete) s.tasks with
  | some i =>
    let ts := s.tasks.eraseIdx i
    updateStorage { s with tasks := ts,
                           listElem := Option.map (fun _ => ts) s.listElem }
  | none => s

/-- The user-interface events that mutate the task list: a submit that adds
`d`, a checkbox toggle on row `i`, and a click on row `i`'s delete button. -/
inductive Op where
  | add (d : String)
  | toggle (i : Nat)
  | deleteClick (i : Nat)
deriving DecidableEq, Repr

/-- One reachable mutating event.  `none` marks an event that cannot occur:
a submit whose description is falsy does not add, and a toggle or delete
click needs a rendered row, i.e. an index into the array.  A delete click on
row `i` runs `deleteTask` on the task object of that row, which is the array
element at position `i`. -/
def stepOp (s : AppState) : Op → Option AppState
  | .add d => if d = "" then none else some (submitEvent true (some d) s).1
  | .toggle i => if i < s.tasks.length then some (toggleEvent s i) else none
  | .deleteClick i =>
    match s.tasks[i]? with
    | some t => some (deleteTask s t)
    | none => none

/-- Run a sequence of reachable events; `none` if any of them cannot occur. -/
def runOps? (s : AppState) : List Op → Option AppState
  | [] => some s
  | op :: ops =>
    match stepOp s op with
    | some s1 => runOps? s1 ops
    | none => none

theorem escapeChar_length_pos (c : Char) : 1 ≤ (escapeChar c).length := by
  unfold escapeChar
  repeat' split
  all_goals simp

theorem escTail_length (s : List Char) : s.length ≤ (escTail s).length := by
  induction s with
  | nil => simp [escTail]
  | cons c cs ih =>
    have := escapeChar_length_pos c
    simp [escTail]
    omega

theorem hexVal?_hexDigit (k : Nat) (h : k < 16) : hexVal? (hexDigit k) = some k := by
  interval_cases k <;> decide

theorem parseStrAux_escTail (s : List Char) : ∀ (fuel : Nat) (l : List Char),
    s.length < fuel →
    parseStrAux fuel (escTail s ++ '"' :: l) = some (s, l) := by
  induction s with
  | nil =>
    intro fuel l h
    cases fuel with
    | zero => omega
    | succ f => simp [escTail, parseStrAux]
  | cons c cs ih =>
    intro fuel l h
    cases fuel with
    | zero => omega
    | succ f =>
      have hf : cs.length < f := by simp at h; omega
      by_cases h1 : c = '"'
      · subst h1
        simp [escTail, escapeChar, parseStrAux, unescapeChar?, ih f l hf]
      by_cases h2 : c = '\\'
      · subst h2
        simp [escTail, escapeChar, parseStrAux, unescapeChar?, ih f l hf]
      by_cases h3 : c = '\x08'
      · subst h3
        simp [escTail, escapeChar, parseStrAux, unescapeChar?, ih f l hf]
      by_cases h4 : c = '\x0c'
      · subst h4
        simp [escTail, escapeChar, parseStrAux, unescapeChar?, ih f l hf]
      by_cases h5 : c = '\n'
      · subst h5
        simp [escTail, escapeChar, parseStrAux, unescapeChar?, ih f l hf]
      by_cases h6 : c = '\r'
      · subst h6
        simp [escTail, escapeChar, parseStrAux, unescapeChar?, ih f l hf]
      by_cases h7 : c = '\t'
      · subst h7
        simp [escTail, escapeChar, parseStrAux, unescapeChar?, ih f l hf]
      by_cases h8 : c.toNat < 32
      · have hdiv : c.toNat / 16 < 16 := by omega
        have hmod : c.toNat % 16 < 16 := Nat.mod_lt _ (by omega)
        have hn : ((0 * 16 + 0) * 16 + c.toNat / 16) * 16 + c.toNat % 16 = c.toNat := by
          omega
        have hn2 : c.toNat / 16 * 16 + c.toNat % 16 = c.toNat := by omega
        have hlt : c.toNat < 55296 := by omega
        have e0 : hexVal? '0' = some 0 := by decide
        simp [escTail, escapeChar, h1, h2, h3, h4, h5, h6, h7, h8, parseStrAux,
          e0, hexVal?_hexDigit _ hdiv, hexVal?_hexDigit _ hmod, hn, hn2,
          hlt, ih f l hf]
      · simp [escTail, escapeChar, h1, h2, h3, h4, h5, h6, h7, h8, parseStrAux,
          ih f l hf]

theorem parseStr_escTail (s : List Char) (l : List Char) :
    parseStr (escTail s ++ '"' :: l) = some (s, l) := by
  have hlen : s.length < (escTail s ++ '"' :: l).length + 1 := by
    have := escTail_length s
    simp
    omega
  exact parseStrAux_escTail s _ l hlen

theorem stripLit_append (p l : List Char) : stripLit p (p ++ l) = some l := by
  induction p with
  | nil => simp [stripLit]
  | cons c cs ih => simp [stripLit, ih]

theorem parseTaskObj_encode (t : Task) (l : List Char) :
    parseTaskObj (encodeTaskChars t ++ l) = some (t, l) := by
  obtain ⟨d, b⟩ := t
  obtain ⟨dl⟩ := d
  have htrue : "true".data = ['t', 'r', 'u', 'e'] := rfl
  have hfalse : "false".data = ['f', 'a', 'l', 's', 'e'] := rfl
  cases b <;>
    simp [encodeTaskChars, encodeStrChars, parseTaskObj, stripLit_append,
      parseStr_escTail, parseBool, htrue, hfalse, stripLit]

theorem encodeTaskChars_length (t : Task) : 1 ≤ (encodeTaskChars t).length := by
  simp [encodeTaskChars]

theorem encodeInner_length (ts : List Task) : ts.length ≤ (encodeInner ts).length := by
  induction ts with
  | nil => simp [encodeInner]
  | cons t ts ih =>
    cases ts with
    | nil =>
      have := encodeTaskChars_length t
      simpa [encodeInner] using this
    | cons t2 ts2 =>
      have h1 := encodeTaskChars_length t
      simp [encodeInner] at ih ⊢
      omega

theorem parseTasksLoop_encode (ts : List Task) : ∀ (fuel : Nat) (l : List Char),
    ts ≠ [] → ts.length ≤ fuel →
    parseTasksLoop fuel (encodeInner ts ++ ']' :: l) = some (ts, l) := by
  induction ts with
  | nil => intro fuel l h _; exact absurd rfl h
  | cons t ts ih =>
    intro fuel l _ hfuel
    cases fuel with
    | zero => simp at hfuel
    | succ f =>
      cases ts with
      | nil => simp [encodeInner, parseTasksLoop, parseTaskObj_encode]
      | cons t2 ts2 =>
        have hlen : (t2 :: ts2).length ≤ f := by simp at hfuel ⊢; omega
        simp [encodeInner, parseTasksLoop, parseTaskObj_encode,
          ih f l (by simp) hlen]

theorem parseTasksChars_encode (ts : List Task) :
    parseTasksChars (encodeTasksChars ts) = some ts := by
  cases ts with
  | nil => rfl
  | cons t ts =>
    have hlen := encodeInner_length (t :: ts)
    simp only [List.length_cons] at hlen
    have hne : encodeInner (t :: ts) ++ [']'] ≠ [']'] := by
      intro hcontra
      have h2 : (encodeInner (t :: ts)).length + 1 = 1 := by
        simpa using congrArg List.length hcontra
      omega
    have hfuel : (t :: ts).length ≤ (encodeInner (t :: ts)).length + 1 := by
      simp only [List.length_cons]
      omega
    have hloop := parseTasksLoop_encode (t :: ts)
      ((encodeInner (t :: ts)).length + 1) [] (by simp) hfuel
    simp [encodeTasksChars, parseTasksChars, hne, hloop]

theorem encodeTasks_ne_empty (ts : List Task) : encodeTasks ts ≠ "" := by
  intro hcontra
  have h2 : (encodeTasks ts).data = "".data := congrArg String.data hcontra
  simp [encodeTasks, encodeTasksChars] at h2

theorem loadTasks_encodeTasks (ts : List Task) :
    loadTasks (some (encodeTasks ts)) = some ts := by
  have hne := encodeTasks_ne_empty ts
  simp only [loadTasks]
  rw [if_neg hne]
  exact parseTasksChars_encode ts

theorem toggleTask_toggleTask (t : Task) : toggleTask (toggleTask t) = t := by
  obtain ⟨d, b⟩ := t
  simp [toggleTask]

theorem toggleAt_length (ts : List Task) : ∀ i, (toggleAt ts i).length = ts.length := by
  induction ts with
  | nil => intro i; rfl
  | cons t ts ih =>
    intro i
    cases i with
    | zero => simp [toggleAt]
    | succ j => simp [toggleAt, ih]

theorem toggleAt_toggleAt (ts : List Task) : ∀ i, toggleAt (toggleAt ts i) i = ts := by
  induction ts with
  | nil => intro i; rfl
  | cons t ts ih =>
    intro i
    cases i with
    | zero => simp [toggleAt, toggleTask_toggleTask]
    | succ j => simp [toggleAt, ih]

theorem toggleAt_getElem?_self (ts : List Task) :
    ∀ i, (toggleAt ts i)[i]? = Option.map toggleTask ts[i]? := by
  induction ts with
  | nil => intro i; rfl
  | cons t ts ih =>
    intro i
    cases i with
    | zero => simp [toggleAt]
    | succ j => simpa [toggleAt] using ih j

theorem toggleAt_getElem?_ne (ts : List Task) :
    ∀ i j, j ≠ i → (toggleAt ts i)[j]? = ts[j]? := by
  induction ts with
  | nil => intro i j _; rfl
  | cons t ts ih =>
    intro i j hne
    cases i with
    | zero =>
      cases j with
      | zero => exact absurd rfl hne
      | succ j2 => simp [toggleAt]
    | succ i2 =>
      cases j with
      | zero => simp [toggleAt]
      | succ j2 =>
        have : j2 ≠ i2 := by omega
        simpa [toggleAt] using ih i2 j2 this

theorem taskMatches_self (t : Task) : taskMatches t t = true := by
  simp [taskMatches]

theorem findIndexOpt_eq_none (p : α → Bool) (l : List α)
    (h : ∀ u ∈ l, p u = false) : findIndexOpt p l = none := by
  induction l with
  | nil => rfl
  | cons a l ih =>
    have ha := h a (by simp)
    have hl : ∀ u ∈ l, p u = false := fun u hu => h u (by simp [hu])
    simp [findIndexOpt, ha, ih hl]

theorem findIndexOpt_first (p : α → Bool) (l1 : List α) (t : α) (l2 : List α)
    (h1 : ∀ u ∈ l1, p u = false) (h2 : p t = true) :
    findIndexOpt p (l1 ++ t :: l2) = some l1.length := by
  induction l1 with
  | nil => simp [findIndexOpt, h2]
  | cons a l1 ih =>
    have ha := h1 a (by simp)
    have hl : ∀ u ∈ l1, p u = false := fun u hu => h1 u (by simp [hu])
    simp [findIndexOpt, ha, ih hl]

theorem findIndexOpt_isSome (p : α → Bool) (l : List α) (t : α)
    (hmem : t ∈ l) (hp : p t = true) : (findIndexOpt p l).isSome := by
  induction l with
  | nil => simp at hmem
  | cons a l ih =>
    by_cases ha : p a = true
    · simp [findIndexOpt, ha]
    · have htl : t ∈ l := by
        rcases List.mem_cons.mp hmem with h | h
        · subst h; exact absurd hp ha
        · exact h
      have hrec := ih htl
      simp only [Bool.not_eq_true] at ha
      simp [findIndexOpt, ha, hrec]

theorem eraseIdx_append_length (l1 : List α) (t : α) (l2 : List α) :
    (l1 ++ t :: l2).eraseIdx l1.length = l1 ++ l2 := by
  induction l1 with
  | nil => rfl
  | cons a l1 ih => simp [List.eraseIdx, ih]

theorem stepOp_storage (s s1 : AppState) (op : Op) (h : stepOp s op = some s1) :
    s1.storage = some (encodeTasks s1.tasks) := by
  cases op with
  | add d =>
    by_cases hd : d = ""
    · simp [stepOp, hd] at h
    · simp [stepOp, hd, submitEvent, updateStorage] at h
      subst h
      rfl
  | toggle i =>
    by_cases hi : i < s.tasks.length
    · simp [stepOp, hi, toggleEvent, updateStorage] at h
      subst h
      rfl
    · simp [stepOp, hi] at h
  | deleteClick i =>
    cases hget : s.tasks[i]? with
    | none => simp [stepOp, hget] at h
    | some t =>
      simp only [stepOp, hget, Option.some.injEq] at h
      have hmem : t ∈ s.tasks := List.getElem?_mem hget
      have hsome := findIndexOpt_isSome (taskMatches t) s.tasks t hmem
        (taskMatches_self t)
      cases hidx : findIndexOpt (taskMatches t) s.tasks with
      | none => rw [hidx] at hsome; simp at hsome
      | some j =>
        rw [deleteTask, hidx] at h
        subst h
        rfl

/-- Claim C1: after every add, toggle, or delete operation — i.e. after every
nonempty sequence of user-interface events that the page can actually
deliver (a submit that adds, a checkbox change on a rendered row, a delete
click on a rendered row) — the snapshot stored under the `tasks` key exactly
equals the JSON serialization of the in-memory task array.  Every such event
ends in `updateStorage()`: an accepted submit and an in-range toggle write
unconditionally, and a delete click always finds a match because the clicked
row's task is the array element at that row (it matches itself), so the
`findIndex === -1` branch is unreachable from the UI. -/
theorem claim_C1_snapshot_matches_memory (ops : List Op) (s0 s1 : AppState)
    (hne : ops ≠ []) (hrun : runOps? s0 ops = some s1) :
    s1.storage = some (encodeTasks s1.tasks) := by
  induction ops generalizing s0 with
  | nil => exact absurd rfl hne
  | cons op ops ih =>
    simp only [runOps?] at hrun
    cases hstep : stepOp s0 op with
    | none => rw [hstep] at hrun; simp at hrun
    | some s2 =>
      rw [hstep] at hrun
      cases ops with
      | nil =>
        simp only [runOps?, Option.some.injEq] at hrun
        rw [← hrun]
        exact stepOp_storage s0 s2 op hstep
      | cons op2 ops2 => exact ih s2 (by simp) hrun

/-- Witness for C1 at the concrete run: starting from a fresh state (no
snapshot, empty list) and adding the task `A`. -/
theorem claim_C1_snapshot_matches_memory_witness :
    (AppState.mk [Task.mk "A" false] (some (encodeTasks [Task.mk "A" false]))
        (some [Task.mk "A" false])).storage =
      some (encodeTasks (AppState.mk [Task.mk "A" false]
        (some (encodeTasks [Task.mk "A" false]))
        (some [Task.mk "A" false])).tasks) :=
  claim_C1_snapshot_matches_memory [Op.add "A"] (AppState.mk [] none (some []))
    (AppState.mk [Task.mk "A" false] (some (encodeTasks [Task.mk "A" false]))
      (some [Task.mk "A" false]))
    (by decide) (by rfl)

/-- Counterexample to claim C2 as stated: storing the corrupt snapshot `x`
makes `JSON.parse` throw — `loadTasks` does not return the empty sequence
(the exception is uncaught, modelled by `none`). -/
theorem claim_C2_cex :
    loadTasks (some "x") = none ∧ loadTasks (some "x") ≠ some [] := by
  decide

/-- Claim C2 (amended): `load()` returns the decoded sequence when a
snapshot exists and decodes; it returns the empty sequence when no snapshot
exists, and also when the stored string is empty (falsy); but when decoding
the stored snapshot fails, the `JSON.parse` exception propagates out of
`loadTasks` (no value is returned) instead of being treated as "no
tasks". -/
theorem claim_C2_load_amended :
    loadTasks none = some ([] : List Task) ∧
    loadTasks (some "") = some ([] : List Task) ∧
    (∀ (s : String) (ts : List Task),
      s ≠ "" → parseTasks s = some ts → loadTasks (some s) = some ts) ∧
    (∀ s : String, s ≠ "" → parseTasks s = none → loadTasks (some s) = none) := by
  refine ⟨rfl, rfl, ?_, ?_⟩
  · intro s ts h1 h2
    simp [loadTasks, h1, h2]
  · intro s h1 h2
    simp [loadTasks, h1, h2]

/-- Witness for the amended C2 at concrete snapshots `[]` and `x`. -/
theorem claim_C2_load_amended_witness :
    loadTasks (some "[]") = some ([] : List Task) ∧
    loadTasks (some "x") = (none : Option (List Task)) :=
  ⟨claim_C2_load_amended.2.2.1 "[]" [] (by decide) (by decide),
   claim_C2_load_amended.2.2.2 "x" (by decide) (by decide)⟩

/-- Counterexample to claim C3 as stated: submitting a whitespace-only
description (a single space) is truthy in `if (taskDescription)`, so the
handler adds the task and does not alert, contradicting the claim that a
whitespace-only input is rejected. -/
theorem claim_C3_cex :
    (submitEvent true (some " ") (AppState.mk [] (some "[]") (some []))).2 = false ∧
    (submitEvent true (some " ") (AppState.mk [] (some "[]") (some []))).1.tasks =
      [Task.mk " " false] := by
  decide

/-- Claim C3 (amended): only a submit whose input value is the empty string
(or whose input element is missing, making the read yield `undefined`)
leaves the task sequence unchanged, writes nothing to storage, and shows the
blocking alert; whitespace-only input is truthy and is added like any other
description. -/
theorem claim_C3_empty_submit_rejected (s : AppState) :
    submitEvent true (some "") s = (s, true) ∧
    submitEvent true none s = (s, true) := by
  constructor
  · simp [submitEvent]
  · simp [submitEvent]

/-- Claim C4: adding a task appends `{description, isCompleted: false}` at
the end: the length grows by one, the last element is the new task, and no
de-duplication happens — the number of copies of that exact task always
grows by one, so a description already present is added again. -/
theorem claim_C4_add_appends (ts : List Task) (d : String) :
    (addTask ts (Task.mk d false)).length = ts.length + 1 ∧
    (addTask ts (Task.mk d false)).getLast? = some (Task.mk d false) ∧
    (addTask ts (Task.mk d false)).count (Task.mk d false) =
      ts.count (Task.mk d false) + 1 := by
  refine ⟨by simp [addTask], by simp [addTask], by simp [addTask]⟩

/-- Claim C5: `deleteTask` removes exactly the first element whose
(description, isCompleted) pair matches the target, leaving the rest in
their original relative order (so with duplicates, exactly one — the first —
is removed); when nothing matches it is a silent no-op on the sequence. -/
theorem claim_C5_delete_first_match :
    (∀ (l1 l2 : List Task) (t tgt : Task) (st : Option String)
        (le : Option (List Task)),
      (∀ u ∈ l1, taskMatches tgt u = false) → taskMatches tgt t = true →
      (deleteTask (AppState.mk (l1 ++ t :: l2) st le) tgt).tasks = l1 ++ l2) ∧
    (∀ (s : AppState) (tgt : Task),
      (∀ u ∈ s.tasks, taskMatches tgt u = false) →
      (deleteTask s tgt).tasks = s.tasks) := by
  constructor
  · intro l1 l2 t tgt st le h1 h2
    have hidx := findIndexOpt_first (taskMatches tgt) l1 t l2 h1 h2
    simp only [deleteTask] at hidx ⊢
    rw [hidx]
    simp [updateStorage, eraseIdx_append_length]
  · intro s tgt h
    simp [deleteTask, findIndexOpt_eq_none _ _ h]

/-- Witness for C5: deleting `B` from `[A, B, B]` removes only the first
`B`; deleting `B` from `[A]` changes nothing. -/
theorem claim_C5_delete_first_match_witness :
    (deleteTask (AppState.mk [Task.mk "A" false, Task.mk "B" false,
        Task.mk "B" false] none none) (Task.mk "B" false)).tasks =
      [Task.mk "A" false, Task.mk "B" false] ∧
    (deleteTask (AppState.mk [Task.mk "A" false] none none)
        (Task.mk "B" false)).tasks = [Task.mk "A" false] :=
  ⟨claim_C5_delete_first_match.1 [Task.mk "A" false] [Task.mk "B" false]
      (Task.mk "B" false) (Task.mk "B" false) none none (by decide) (by decide),
   claim_C5_delete_first_match.2
      (AppState.mk [Task.mk "A" false] none none) (Task.mk "B" false) (by decide)⟩

/-- Claim C6: toggling row `i` flips that task's `isCompleted` flag, and
toggling the same row twice restores the task sequence to its original
value — the toggle is an involution on the sequence. -/
theorem claim_C6_toggle_involution (s : AppState) (i : Nat) :
    (toggleEvent (toggleEvent s i) i).tasks = s.tasks ∧
    Option.map Task.isCompleted (toggleEvent s i).tasks[i]? =
      Option.map (fun t => !t.isCompleted) s.tasks[i]? := by
  constructor
  · by_cases hi : i < s.tasks.length
    · have h1 := toggleAt_length s.tasks i
      simp [toggleEvent, updateStorage, hi, h1, toggleAt_toggleAt]
    · simp [toggleEvent, hi]
  · by_cases hi : i < s.tasks.length
    · simp only [toggleEvent, updateStorage, if_pos hi]
      rw [toggleAt_getElem?_self]
      cases s.tasks[i]? with
      | none => rfl
      | some t => simp [toggleTask]
    · have hnone : s.tasks[i]? = none := List.getElem?_eq_none (Nat.le_of_not_lt hi)
      simp [toggleEvent, hi, hnone]

/-- Claim C7: restoring from a snapshot produced by persisting any task
sequence reproduces that sequence (load is a left inverse of persist), and
in particular the snapshot string for one completed task `A` decodes to
exactly that task. -/
theorem claim_C7_load_inverts_persist (ts : List Task) :
    loadTasks (some (encodeTasks ts)) = some ts ∧
    loadTasks (some "[\x7b\"description\":\"A\",\"isCompleted\":true\x7d]") =
      some [Task.mk "A" true] :=
  ⟨loadTasks_encodeTasks ts, by decide⟩

/-- Claim C8: missing DOM elements are null-guarded.  A missing form means
the submit listener was never attached, so a submit does nothing at all.  A
missing input field makes the read yield `undefined` and the handler leaves
the state untouched.  A missing list container skips only the rendering:
adding and deleting still update the array and the snapshot, and the
(absent) container stays absent.  All handlers are total functions, so no
null dereference occurs. -/
theorem claim_C8_missing_dom_guards :
    (∀ (input : Option String) (s : AppState),
      submitEvent false input s = (s, false)) ∧
    (∀ s : AppState, (submitEvent true none s).1 = s) ∧
    (∀ (ts : List Task) (st : Option String) (v : String), v ≠ "" →
      (submitEvent true (some v) (AppState.mk ts st none)).1.listElem = none ∧
      (submitEvent true (some v) (AppState.mk ts st none)).1.tasks =
        ts ++ [Task.mk v false]) ∧
    (∀ (ts : List Task) (st : Option String) (tgt : Task),
      (deleteTask (AppState.mk ts st none) tgt).listElem = none) := by
  refine ⟨fun input s => rfl, fun s => rfl, ?_, ?_⟩
  · intro ts st v hv
    constructor
    · simp [submitEvent, hv, updateStorage, renderTask, addTask]
    · simp [submitEvent, hv, updateStorage, renderTask, addTask]
  · intro ts st tgt
    cases hidx : findIndexOpt (taskMatches tgt) ts with
    | none => simp [deleteTask, hidx]
    | some j => simp [deleteTask, hidx, updateStorage]

/-- Witness for C8: with the list container missing, adding `A` to an empty
state leaves the container absent and still appends the task. -/
theorem claim_C8_missing_dom_guards_witness :
    (submitEvent true (some "A") (AppState.mk [] none none)).1.listElem = none ∧
    (submitEvent true (some "A") (AppState.mk [] none none)).1.tasks =
      [] ++ [Task.mk "A" false] :=
  claim_C8_missing_dom_guards.2.2.1 [] none "A" (by decide)

/-- Claim C9 (frame property of toggle): toggling row `i` preserves the
length of the sequence, leaves every other position untouched, and keeps the
description at position `i`; only the `isCompleted` flag there can change. -/
theorem claim_C9_toggle_frame (s : AppState) (i : Nat) :
    (toggleEvent s i).tasks.length = s.tasks.length ∧
    (∀ j, j ≠ i → (toggleEvent s i).tasks[j]? = s.tasks[j]?) ∧
    Option.map Task.description (toggleEvent s i).tasks[i]? =
      Option.map Task.description s.tasks[i]? := by
  refine ⟨?_, ?_, ?_⟩
  · by_cases hi : i < s.tasks.length
    · simp [toggleEvent, updateStorage, hi, toggleAt_length]
    · simp [toggleEvent, hi]
  · intro j hj
    by_cases hi : i < s.tasks.length
    · simp only [toggleEvent, updateStorage, if_pos hi]
      exact toggleAt_getElem?_ne s.tasks i j hj
    · simp [toggleEvent, hi]
  · by_cases hi : i < s.tasks.length
    · simp only [toggleEvent, updateStorage, if_pos hi]
      rw [toggleAt_getElem?_self]
      cases s.tasks[i]? with
      | none => rfl
      | some t => simp [toggleTask]
    · simp [toggleEvent, hi]

/-- Witness for C9: toggling row 0 of `[A, B]` leaves row 1 unchanged. -/
theorem claim_C9_toggle_frame_witness :
    (toggleEvent (AppState.mk [Task.mk "A" false, Task.mk "B" true] none none)
        0).tasks[1]? =
      (AppState.mk [Task.mk "A" false, Task.mk "B" true] none none).tasks[1]? :=
  (claim_C9_toggle_frame
    (AppState.mk [Task.mk "A" false, Task.mk "B" true] none none) 0).2.1 1
    (by decide)

/-- Claim C10: when `deleteTask` finds no matching task it returns without
doing anything — the array, the stored snapshot, and the rendered list are
all exactly as before (no `updateStorage`, no re-render). -/
theorem claim_C10_delete_no_match_no_write (s : AppState) (tgt : Task)
    (h : ∀ u ∈ s.tasks, taskMatches tgt u = false) :
    deleteTask s tgt = s := by
  simp [deleteTask, findIndexOpt_eq_none _ _ h]

/-- Witness for C10: deleting an absent task from a one-task state leaves
the whole state (snapshot string included) untouched. -/
theorem claim_C10_delete_no_match_no_write_witness :
    deleteTask (AppState.mk [Task.mk "A" false] (some "stale")
        (some [Task.mk "A" false])) (Task.mk "B" true) =
      AppState.mk [Task.mk "A" false] (some "stale") (some [Task.mk "A" false]) :=
  claim_C10_delete_no_match_no_write
    (AppState.mk [Task.mk "A" false] (some "stale") (some [Task.mk "A" false]))
    (Task.mk "B" true) (by decide)

end Todo
